import Mathlib

/-!
Shallow embedding of the turducken specification-and-verification engine
(rfielding/turducken), covering:

* the CTL satisfaction predicates of the Prolog core library embedded in
  `pkg/prolog/engine.go` (`ctl_ex`, `ctl_ax`, `ctl_ef`, `ctl_af`, `ctl_eg`,
  `ctl_ag`, `ctl_eu`, `ctl_au`, `ctl_sat`, `check_ctl`);
* the façade lifecycle (`LoadSpec`, `Reset`, `GetSource` in engine.go and the
  POST branch of `handleSpec` in `pkg/server/server.go`);
* the simulator guard evaluation (`transitionAllowed`, `stateGuardSatisfied`,
  `transitionGuardSatisfied` in server.go) and the `dice0/2` guard helper of
  the core library;
* the projection layer (`GetStateMachine`, `GetSequenceDiagram`,
  `GetPieChart`, `GetLineChart`, `GetProperties`, `GetDocs`, `GetActors`),
  translated from the full engine implementation in the unnamed source file
  part_005 (its first engine version, whose projections the server calls).

A loaded Kripke model is represented by the finite solution lists of the
dynamic predicates `transition/3`, `prop/2` and `initial/1`.  A Prolog goal
succeeds iff it has at least one solution, so each goal is embedded as a
`Bool`-valued function over these lists.
-/

namespace Turducken

/-- CTL formulas, exactly the constructors recognised by `ctl_sat` in the core
library of engine.go. -/
inductive Formula where
  | atom : String → Formula
  | not : Formula → Formula
  | and : Formula → Formula → Formula
  | or : Formula → Formula → Formula
  | ex : Formula → Formula
  | ax : Formula → Formula
  | ef : Formula → Formula
  | af : Formula → Formula
  | eg : Formula → Formula
  | ag : Formula → Formula
  | eu : Formula → Formula → Formula
  | au : Formula → Formula → Formula
deriving DecidableEq

/-- A loaded model: the solution lists of the dynamic predicates
`transition(From, Label, To)`, `prop(State, P)` and `initial(S)`. -/
structure Model where
  transition : List (String × String × String)
  prop : List (String × String)
  initial : List String
deriving DecidableEq

/-- The successors of a state: all `Next` with a solution of
`transition(State, _, Next)`, in clause order. -/
def Model.succs (m : Model) (s : String) : List String :=
  (m.transition.filter (fun tr => tr.1 == s)).map (fun tr => tr.2.2)

/-- Whether the goal `prop(State, P)` has a solution. -/
def Model.hasProp (m : Model) (s p : String) : Bool :=
  m.prop.any (fun q => q.1 == s && q.2 == p)

/-- The first arguments of all `transition/3` facts; only these states can
recurse further in the visited-set fixpoints. -/
def Model.sources (m : Model) : List String :=
  m.transition.map (fun tr => tr.1)

/-- The sources as a finset, used as the termination measure of the
visited-set recursions. -/
def Model.sourcesFinset (m : Model) : Finset String :=
  m.sources.toFinset

/-- Translated from `ctl_ef/3` in engine.go.  The subformula is abstracted to
its satisfaction function `p` (Prolog's `ctl_sat(State, Phi)` does not depend
on the visited list, so this is the same recursion):
`ctl_ef(S,Phi,V)` succeeds iff `ctl_sat(S,Phi)`, or `S` is unvisited and some
transition successor satisfies `ctl_ef` with `S` added to the visited list. -/
def ctl_ef (m : Model) (p : String → Bool) (S : String) (V : List String) : Bool :=
  p S ||
    (if h : V.contains S then false
     else (m.succs S).attach.any (fun n => ctl_ef m p n.1 (S :: V)))
termination_by (m.sourcesFinset \ V.toFinset).card
decreasing_by
  have hn := n.2
  simp only [Model.succs, List.mem_map, List.mem_filter] at hn
  obtain ⟨tr, ⟨htr, heq⟩, _⟩ := hn
  have hS : S ∈ m.sourcesFinset := by
    simp only [Model.sourcesFinset, Model.sources, List.mem_toFinset, List.mem_map]
    exact ⟨tr, htr, by simpa using heq⟩
  have hSV : S ∉ V.toFinset := by
    simp only [List.mem_toFinset]
    intro hmem
    exact h (by simpa using hmem)
  have hsub : m.sourcesFinset \ (S :: V).toFinset ⊆ m.sourcesFinset \ V.toFinset := by
    intro x hx
    simp only [List.toFinset_cons, Finset.mem_sdiff, Finset.mem_insert] at hx ⊢
    exact ⟨hx.1, fun hxV => hx.2 (Or.inr hxV)⟩
  refine Finset.card_lt_card ((Finset.ssubset_iff_of_subset hsub).2 ⟨S, ?_, ?_⟩)
  · exact Finset.mem_sdiff.2 ⟨hS, hSV⟩
  · simp [List.toFinset_cons]

/-- Translated from `ctl_af/3` in engine.go: `ctl_af(S,Phi,V)` succeeds iff
`ctl_sat(S,Phi)`, or `S` is unvisited, has at least one successor, and every
successor satisfies `ctl_af` with `S` added to the visited list. -/
def ctl_af (m : Model) (p : String → Bool) (S : String) (V : List String) : Bool :=
  p S ||
    (if h : V.contains S then false
     else !(m.succs S).isEmpty &&
       (m.succs S).attach.all (fun n => ctl_af m p n.1 (S :: V)))
termination_by (m.sourcesFinset \ V.toFinset).card
decreasing_by
  have hn := n.2
  simp only [Model.succs, List.mem_map, List.mem_filter] at hn
  obtain ⟨tr, ⟨htr, heq⟩, _⟩ := hn
  have hS : S ∈ m.sourcesFinset := by
    simp only [Model.sourcesFinset, Model.sources, List.mem_toFinset, List.mem_map]
    exact ⟨tr, htr, by simpa using heq⟩
  have hSV : S ∉ V.toFinset := by
    simp only [List.mem_toFinset]
    intro hmem
    exact h (by simpa using hmem)
  have hsub : m.sourcesFinset \ (S :: V).toFinset ⊆ m.sourcesFinset \ V.toFinset := by
    intro x hx
    simp only [List.toFinset_cons, Finset.mem_sdiff, Finset.mem_insert] at hx ⊢
    exact ⟨hx.1, fun hxV => hx.2 (Or.inr hxV)⟩
  refine Finset.card_lt_card ((Finset.ssubset_iff_of_subset hsub).2 ⟨S, ?_, ?_⟩)
  · exact Finset.mem_sdiff.2 ⟨hS, hSV⟩
  · simp [List.toFinset_cons]

/-- Translated from `ctl_eg/3` in engine.go: `ctl_eg(S,Phi,V)` succeeds iff
`ctl_sat(S,Phi)` and (`S` is already visited — a cycle counts as success — or
some successor satisfies `ctl_eg` with `S` added to the visited list). -/
def ctl_eg (m : Model) (p : String → Bool) (S : String) (V : List String) : Bool :=
  p S &&
    (if h : V.contains S then true
     else (m.succs S).attach.any (fun n => ctl_eg m p n.1 (S :: V)))
termination_by (m.sourcesFinset \ V.toFinset).card
decreasing_by
  have hn := n.2
  simp only [Model.succs, List.mem_map, List.mem_filter] at hn
  obtain ⟨tr, ⟨htr, heq⟩, _⟩ := hn
  have hS : S ∈ m.sourcesFinset := by
    simp only [Model.sourcesFinset, Model.sources, List.mem_toFinset, List.mem_map]
    exact ⟨tr, htr, by simpa using heq⟩
  have hSV : S ∉ V.toFinset := by
    simp only [List.mem_toFinset]
    intro hmem
    exact h (by simpa using hmem)
  have hsub : m.sourcesFinset \ (S :: V).toFinset ⊆ m.sourcesFinset \ V.toFinset := by
    intro x hx
    simp only [List.toFinset_cons, Finset.mem_sdiff, Finset.mem_insert] at hx ⊢
    exact ⟨hx.1, fun hxV => hx.2 (Or.inr hxV)⟩
  refine Finset.card_lt_card ((Finset.ssubset_iff_of_subset hsub).2 ⟨S, ?_, ?_⟩)
  · exact Finset.mem_sdiff.2 ⟨hS, hSV⟩
  · simp [List.toFinset_cons]

/-- Translated from `ctl_ag/3` in engine.go: `ctl_ag(S,Phi,V)` succeeds iff
`ctl_sat(S,Phi)` and (`S` is already visited — a cycle counts as success — or
every successor satisfies `ctl_ag` with `S` added to the visited list). -/
def ctl_ag (m : Model) (p : String → Bool) (S : String) (V : List String) : Bool :=
  p S &&
    (if h : V.contains S then true
     else (m.succs S).attach.all (fun n => ctl_ag m p n.1 (S :: V)))
termination_by (m.sourcesFinset \ V.toFinset).card
decreasing_by
  have hn := n.2
  simp only [Model.succs, List.mem_map, List.mem_filter] at hn
  obtain ⟨tr, ⟨htr, heq⟩, _⟩ := hn
  have hS : S ∈ m.sourcesFinset := by
    simp only [Model.sourcesFinset, Model.sources, List.mem_toFinset, List.mem_map]
    exact ⟨tr, htr, by simpa using heq⟩
  have hSV : S ∉ V.toFinset := by
    simp only [List.mem_toFinset]
    intro hmem
    exact h (by simpa using hmem)
  have hsub : m.sourcesFinset \ (S :: V).toFinset ⊆ m.sourcesFinset \ V.toFinset := by
    intro x hx
    simp only [List.toFinset_cons, Finset.mem_sdiff, Finset.mem_insert] at hx ⊢
    exact ⟨hx.1, fun hxV => hx.2 (Or.inr hxV)⟩
  refine Finset.card_lt_card ((Finset.ssubset_iff_of_subset hsub).2 ⟨S, ?_, ?_⟩)
  · exact Finset.mem_sdiff.2 ⟨hS, hSV⟩
  · simp [List.toFinset_cons]

/-- Translated from `ctl_eu/4` in engine.go: `ctl_eu(S,Phi,Psi,V)` succeeds
iff `ctl_sat(S,Psi)`, or `S` is unvisited, `ctl_sat(S,Phi)` holds and some
successor satisfies `ctl_eu` with `S` added to the visited list. -/
def ctl_eu (m : Model) (p q : String → Bool) (S : String) (V : List String) : Bool :=
  q S ||
    (if h : V.contains S then false
     else p S && (m.succs S).attach.any (fun n => ctl_eu m p q n.1 (S :: V)))
termination_by (m.sourcesFinset \ V.toFinset).card
decreasing_by
  have hn := n.2
  simp only [Model.succs, List.mem_map, List.mem_filter] at hn
  obtain ⟨tr, ⟨htr, heq⟩, _⟩ := hn
  have hS : S ∈ m.sourcesFinset := by
    simp only [Model.sourcesFinset, Model.sources, List.mem_toFinset, List.mem_map]
    exact ⟨tr, htr, by simpa using heq⟩
  have hSV : S ∉ V.toFinset := by
    simp only [List.mem_toFinset]
    intro hmem
    exact h (by simpa using hmem)
  have hsub : m.sourcesFinset \ (S :: V).toFinset ⊆ m.sourcesFinset \ V.toFinset := by
    intro x hx
    simp only [List.toFinset_cons, Finset.mem_sdiff, Finset.mem_insert] at hx ⊢
    exact ⟨hx.1, fun hxV => hx.2 (Or.inr hxV)⟩
  refine Finset.card_lt_card ((Finset.ssubset_iff_of_subset hsub).2 ⟨S, ?_, ?_⟩)
  · exact Finset.mem_sdiff.2 ⟨hS, hSV⟩
  · simp [List.toFinset_cons]

/-- Translated from `ctl_au/4` in engine.go: `ctl_au(S,Phi,Psi,V)` succeeds
iff `ctl_sat(S,Psi)`, or `S` is unvisited, `ctl_sat(S,Phi)` holds, `S` has at
least one successor, and every successor satisfies `ctl_au` with `S` added to
the visited list. -/
def ctl_au (m : Model) (p q : String → Bool) (S : String) (V : List String) : Bool :=
  q S ||
    (if h : V.contains S then false
     else p S && (!(m.succs S).isEmpty &&
       (m.succs S).attach.all (fun n => ctl_au m p q n.1 (S :: V))))
termination_by (m.sourcesFinset \ V.toFinset).card
decreasing_by
  have hn := n.2
  simp only [Model.succs, List.mem_map, List.mem_filter] at hn
  obtain ⟨tr, ⟨htr, heq⟩, _⟩ := hn
  have hS : S ∈ m.sourcesFinset := by
    simp only [Model.sourcesFinset, Model.sources, List.mem_toFinset, List.mem_map]
    exact ⟨tr, htr, by simpa using heq⟩
  have hSV : S ∉ V.toFinset := by
    simp only [List.mem_toFinset]
    intro hmem
    exact h (by simpa using hmem)
  have hsub : m.sourcesFinset \ (S :: V).toFinset ⊆ m.sourcesFinset \ V.toFinset := by
    intro x hx
    simp only [List.toFinset_cons, Finset.mem_sdiff, Finset.mem_insert] at hx ⊢
    exact ⟨hx.1, fun hxV => hx.2 (Or.inr hxV)⟩
  refine Finset.card_lt_card ((Finset.ssubset_iff_of_subset hsub).2 ⟨S, ?_, ?_⟩)
  · exact Finset.mem_sdiff.2 ⟨hS, hSV⟩
  · simp [List.toFinset_cons]

/-- Translated from `ctl_sat/2` in engine.go, by structural recursion on the
formula.  The modal fixpoints receive the satisfaction function of the
subformula, matching the Prolog clauses `ctl_sat(State, ef(Phi)) :-
ctl_ef(State, Phi)` etc. with an empty initial visited list.  `ex` is
`transition(S,_,N), ctl_sat(N,Phi)`; `ax` additionally requires at least one
successor (`Nexts \= []`). -/
def ctl_sat (m : Model) (S : String) : Formula → Bool
  | .atom p => m.hasProp S p
  | .not φ => !(ctl_sat m S φ)
  | .and φ ψ => ctl_sat m S φ && ctl_sat m S ψ
  | .or φ ψ => ctl_sat m S φ || ctl_sat m S ψ
  | .ex φ => (m.succs S).any (fun n => ctl_sat m n φ)
  | .ax φ => !(m.succs S).isEmpty && (m.succs S).all (fun n => ctl_sat m n φ)
  | .ef φ => ctl_ef m (fun s => ctl_sat m s φ) S []
  | .af φ => ctl_af m (fun s => ctl_sat m s φ) S []
  | .eg φ => ctl_eg m (fun s => ctl_sat m s φ) S []
  | .ag φ => ctl_ag m (fun s => ctl_sat m s φ) S []
  | .eu φ ψ => ctl_eu m (fun s => ctl_sat m s φ) (fun s => ctl_sat m s ψ) S []
  | .au φ ψ => ctl_au m (fun s => ctl_sat m s φ) (fun s => ctl_sat m s ψ) S []

/-- Translated from engine.go: `check_ctl(Phi) :- initial(S), ctl_sat(S, Phi).`
As a goal it succeeds iff SOME solution of `initial/1` satisfies `Phi`. -/
def check_ctl (m : Model) (φ : Formula) : Bool :=
  m.initial.any (fun s => ctl_sat m s φ)

/-- The two-state cycle model of spec Scenario B and of `TestCTLCombinators`
in engine_test.go: `initial(s0)`, `transition(s0,a,s1)`, `transition(s1,b,s0)`,
`prop(s0,even)`, `prop(s1,odd)`. -/
def cycleModel : Model :=
  Model.mk [("s0", "a", "s1"), ("s1", "b", "s0")] [("s0", "even"), ("s1", "odd")] ["s0"]

/-- A model with two initial states where only `s0` carries `prop(s0,p)`;
it separates existential from universal quantification over `initial/1`. -/
def twoInitialModel : Model :=
  Model.mk [] [("s0", "p")] ["s0", "s1"]

/-- Engine state visible to the façade: the clause database (abstracted as a
list of installed clause-group tokens) and the retained source string, as in
the `Engine` struct of engine.go. -/
structure EngineState where
  db : List String
  specSource : String
deriving DecidableEq

/-- The built-in core library installed by `loadCore` in engine.go, as a
single opaque database token. -/
def coreDB : List String :=
  ["turducken_core"]

/-- A fresh engine as built by `New` in engine.go: the core library and an
empty retained source. -/
def newEngine : EngineState :=
  EngineState.mk coreDB ""

/-- Translated from `LoadSpec` in engine.go: the retained source is replaced
unconditionally, then the interpreter executes the source.  The external
`interpreter.Exec` is abstracted by `consult`, which returns the clauses of a
source that parses and consults cleanly, and `none` on a parse or consult
error; a failing `Exec` is assumed to leave the database untouched (the
reading most favourable to atomicity).  Nothing restores the previous
database on failure. -/
def LoadSpec (consult : String → Option (List String)) (e : EngineState)
    (source : String) : EngineState × Bool :=
  match consult source with
  | some cs => (EngineState.mk (e.db ++ cs) source, true)
  | none => (EngineState.mk e.db source, false)

/-- Translated from `Reset` in engine.go: a brand-new interpreter with the
core library reloaded and the retained source cleared. -/
def Reset (_e : EngineState) : EngineState :=
  newEngine

/-- Translated from `GetSource` in engine.go. -/
def GetSource (e : EngineState) : String :=
  e.specSource

/-- Translated from the POST branch of `handleSpec` in server.go: the engine
is reset first, then `LoadSpec` runs on the fresh engine; a load error is
reported to the caller but triggers no further recovery. -/
def handleSpecPost (consult : String → Option (List String)) (e : EngineState)
    (source : String) : EngineState × Bool :=
  LoadSpec consult (Reset e) source

/-- A concrete stand-in for `interpreter.Exec`: it rejects the unparseable
source `"bad("` and installs any other source as one clause group. -/
def consult0 : String → Option (List String) :=
  fun s => if s = "bad(" then none else some [s]

/-- The engine after a successful load of `"initial(s0)."` through the spec
endpoint: the database holds the core library plus the loaded clauses. -/
def loadedEngine : EngineState :=
  (handleSpecPost consult0 newEngine "initial(s0).").1

/-- Solutions of the guard predicates as the simulator queries them through
`QueryOne` in server.go: `state_guard g` lists the solutions `G` of
`state_guard(S, G)`, `transition_guard` those of
`transition_guard(From, Label, To, G)`, and `callG g` tells whether the goal
`call(G)` succeeds.  Guard terms are left abstract in `G`. -/
structure GuardDB (G : Type) where
  state_guard : String → List G
  transition_guard : String → String → String → List G
  callG : G → Bool

/-- Translated from `stateGuardSatisfied` in server.go: if
`state_guard(S, _)` has no solution the state is unconditionally enabled;
otherwise `state_guard(S, Guard), call(Guard)` must have a solution. -/
def stateGuardSatisfied {G : Type} (d : GuardDB G) (state : String) : Bool :=
  if (d.state_guard state).isEmpty then true
  else (d.state_guard state).any d.callG

/-- Translated from `transitionGuardSatisfied` in server.go, for the
transition `(From, Label, To)`. -/
def transitionGuardSatisfied {G : Type} (d : GuardDB G)
    (t : String × String × String) : Bool :=
  if (d.transition_guard t.1 t.2.1 t.2.2).isEmpty then true
  else (d.transition_guard t.1 t.2.1 t.2.2).any d.callG

/-- Translated from `transitionAllowed` in server.go: a transition out of the
current actor state is enabled iff the state guard and the transition guard
are both satisfied. -/
def transitionAllowed {G : Type} (d : GuardDB G) (state : String)
    (t : String × String × String) : Bool :=
  if !(stateGuardSatisfied d state) then false
  else if !(transitionGuardSatisfied d t) then false
  else true

/-- A message of the sequence diagram view, `SequenceMessage` in part_005:
`message(Seq, From, To, Label)`.  The Go field `From` is rendered `src` and
`To` is rendered `dst`. -/
structure Message where
  seq : Nat
  src : String
  dst : String
  label : String
deriving DecidableEq

/-- The sequence diagram view returned by `GetSequenceDiagram`. -/
structure SequenceDiagram where
  lifelines : List String
  messages : List Message
deriving DecidableEq

/-- The state machine view returned by `GetStateMachine` (part_005 lines
388-480).  The Go code accumulates the state set in a `map[string]bool` and
then iterates it, so the set of states is represented as a `Finset` (the Go
iteration order is unspecified); the other three fields keep solution
order. -/
structure StateMachine where
  states : Finset String
  transitions : List (String × String × String)
  initial : List String
  accepting : List String
deriving DecidableEq

/-- Clause databases as the projection layer queries them: the solution
lists, in solution order, of the fixed projection predicates.  An annotation
is a `msg_annotation(Label, Direction, Peer)` solution carrying its direction
as the raw atom text, exactly as `GetSequenceDiagram` reads it. -/
structure SpecDB where
  lifelines : List String
  messages : List Message
  msgAnnots : List (String × String × String)
  actorTransitions : List (String × String × String × String)
  transitionFacts : List (String × String × String)
  initialFacts : List String
  acceptingFacts : List String
  pieSlices : List (String × Int)
  linePoints : List (String × Int × Int)
  propertyFacts : List (String × String × String)
  docFacts : List (String × String)
  actorNames : List String
  actorPairs : List (String × String)

/-- Translated from the fallback loop of `GetSequenceDiagram` (part_005 lines
568-614): each `actor_transition(Actor, From, Label, To)` solution is paired,
in solution order, with each `msg_annotation` solution of the same label;
direction `send` yields the endpoints Actor→Peer, `recv` yields Peer→Actor,
and any other direction atom is skipped (the Go `switch` default is
`continue`).  Each kept pair is the `(from, to, label)` of one message. -/
def matchingPairs (annots : List (String × String × String)) :
    List (String × String × String × String) → List (String × String × String)
  | [] => []
  | (actor, _f, label, _t) :: rest =>
      ((annots.filter (fun an => an.1 == label)).filterMap
          (fun an =>
            if an.2.1 = "send" then some (actor, an.2.2, label)
            else if an.2.1 = "recv" then some (an.2.2, actor, label)
            else none))
        ++ matchingPairs annots rest

/-- Translated from the `seqNum` counter of the fallback loop (part_005 lines
572-602): the kept pairs receive consecutive sequence numbers from `n`. -/
def numberFrom (n : Nat) : List (String × String × String) → List Message
  | [] => []
  | (src, dst, label) :: rest => Message.mk n src dst label :: numberFrom (n + 1) rest

/-- The synthesized fallback messages of `GetSequenceDiagram`, numbered
from 1. -/
def synthesizeMessages (annots : List (String × String × String))
    (atrans : List (String × String × String × String)) : List Message :=
  numberFrom 1 (matchingPairs annots atrans)

/-- Translated from the `lifelinesSeen` bookkeeping of the fallback loop
(part_005 lines 604-611): for each synthesized message in order, its `from`
endpoint and then its `to` endpoint is appended unless already appended; the
seen map starts empty, so the primary `lifeline/1` results are not
consulted. -/
def addEndpoints (seen : List String) : List Message → List String
  | [] => []
  | msg :: rest =>
      if seen.contains msg.src then
        if seen.contains msg.dst then addEndpoints seen rest
        else msg.dst :: addEndpoints (msg.dst :: seen) rest
      else
        if (msg.src :: seen).contains msg.dst then
          msg.src :: addEndpoints (msg.src :: seen) rest
        else
          msg.src :: msg.dst :: addEndpoints (msg.dst :: msg.src :: seen) rest

/-- Translated from `GetSequenceDiagram` (part_005 lines 497-621): the
`lifeline/1` and `message/4` solutions are collected in solution order (no
sorting); when there is no `message/4` solution and at least one
`msg_annotation/3` solution, messages are synthesized from the annotations
and `actor_transition/4`, and the synthesized endpoints are appended to the
lifelines.  Every Go return path returns a nil error. -/
def GetSequenceDiagram (db : SpecDB) : SequenceDiagram :=
  if db.messages.isEmpty && !db.msgAnnots.isEmpty then
    SequenceDiagram.mk
      (db.lifelines ++
        addEndpoints [] (synthesizeMessages db.msgAnnots db.actorTransitions))
      (synthesizeMessages db.msgAnnots db.actorTransitions)
  else
    SequenceDiagram.mk db.lifelines db.messages

/-- Translated from `GetStateMachine` (part_005 lines 388-480): the
transition, initial and accepting solutions are kept in solution order; the
state set is the Go map filled with every transition source, transition
target, initial state and accepting state; every return path returns the
view with a nil error (a failing transition query returns the empty view). -/
def GetStateMachine (db : SpecDB) : StateMachine :=
  StateMachine.mk
    ((db.transitionFacts.map (fun tr => tr.1)).toFinset ∪
      (db.transitionFacts.map (fun tr => tr.2.2)).toFinset ∪
      db.initialFacts.toFinset ∪ db.acceptingFacts.toFinset)
    db.transitionFacts db.initialFacts db.acceptingFacts

/-- Translated from `GetPieChart` (part_005 lines 630-654): the
`pie_slice(Label, Value)` solutions in solution order (values pass through
`termToInt`); no solutions yield the empty list, and the returned error is
always nil. -/
def GetPieChart (db : SpecDB) : List (String × Int) :=
  db.pieSlices

/-- Translated from `GetLineChart` (part_005 lines 664-690): the
`line_point(Series, X, Y)` solutions in solution order; no solutions yield
the empty list, and the returned error is always nil. -/
def GetLineChart (db : SpecDB) : List (String × Int × Int) :=
  db.linePoints

/-- Translated from `GetProperties` (part_005 lines 715-741): the
`property(Name, Desc, Formula)` solutions in solution order; no solutions
yield the empty list, and the returned error is always nil. -/
def GetProperties (db : SpecDB) : List (String × String × String) :=
  db.propertyFacts

/-- Translated from `GetDocs` (part_005 lines 750-774): the
`doc(Topic, Content)` solutions in solution order; no solutions yield the
empty list, and the returned error is always nil. -/
def GetDocs (db : SpecDB) : List (String × String) :=
  db.docFacts

/-- Translated from the `seen` map of `GetActors` (part_005 lines 782-806):
names are kept in first-occurrence order, skipping empty names and
duplicates. -/
def dedupFirst (seen : List String) : List String → List String
  | [] => []
  | x :: rest =>
      if x = "" || seen.contains x then dedupFirst seen rest
      else x :: dedupFirst (x :: seen) rest

/-- Translated from `GetActors` (part_005 lines 777-811): the solutions of
`actor(Name)` followed by those of `actor(Name, _)`, de-duplicated in
first-occurrence order with empty names skipped; a failing query is skipped
and the returned error is always nil. -/
def GetActors (db : SpecDB) : List String :=
  dedupFirst [] (db.actorNames ++ db.actorPairs.map (fun a => a.1))

/-- Translated from `dice0/2` of the core library (part_005 lines 162-164):
`dice0(Low, High) :- (dice0_value(D) -> D >= Low, D < High ; true).`
The simulator asserts at most one `dice0_value/1` fact, embedded as an
`Option`; the numbers are embedded as rationals. -/
def dice0 (fact : Option ℚ) (low high : ℚ) : Bool :=
  match fact with
  | some d => decide (d ≥ low) && decide (d < high)
  | none => true

/-- Translated from `setDiceValue` in server.go: retract any prior
`dice0_value/1` fact, then assert the sampled value. -/
def setDiceValue (_fact : Option ℚ) (v : ℚ) : Option ℚ :=
  some v

/-- Translated from `clearDiceValue` in server.go: retract the
`dice0_value/1` fact, leaving none asserted. -/
def clearDiceValue (_fact : Option ℚ) : Option ℚ :=
  none

/-- The Scenario E database: no `message/4` clauses, two annotations and the
corresponding `actor_transition/4` clauses for `client`. -/
def scenarioEDB : SpecDB :=
  SpecDB.mk [] []
    [("send_prompt", "send", "server"),
     ("receive_response", "recv", "server")]
    [("client", "c_idle", "send_prompt", "c_wait"),
     ("client", "c_wait", "receive_response", "c_idle")]
    [] [] [] [] [] [] [] [] []

/-- A database in which every projected predicate has no clauses. -/
def emptySpecDB : SpecDB :=
  SpecDB.mk [] [] [] [] [] [] [] [] [] [] [] [] []


/-! ### Helper lemmas -/

theorem any_attach (l : List String) (f : String → Bool) :
    l.attach.any (fun n => f n.1) = l.any f := by
  have h : (l.attach.any (fun n => f n.1) = true) ↔ (l.any f = true) := by
    simp [List.any_eq_true]
  cases h1 : l.attach.any (fun n => f n.1) <;> cases h2 : l.any f <;> simp_all

theorem all_attach (l : List String) (f : String → Bool) :
    l.attach.all (fun n => f n.1) = l.all f := by
  have h : (l.attach.all (fun n => f n.1) = true) ↔ (l.all f = true) := by
    simp [List.all_eq_true]
  cases h1 : l.attach.all (fun n => f n.1) <;> cases h2 : l.all f <;> simp_all

theorem not_any_eq_all_not (l : List String) (f : String → Bool) :
    (!(l.any f)) = l.all (fun x => !(f x)) := by
  induction l with
  | nil => rfl
  | cons a t ih => simp [List.any_cons, List.all_cons, Bool.not_or, ih]

theorem all_congr_mem (l : List String) (f g : String → Bool)
    (h : ∀ x ∈ l, f x = g x) : l.all f = l.all g := by
  induction l with
  | nil => rfl
  | cons a t ih =>
    simp only [List.all_cons, h a (List.mem_cons_self a t)]
    rw [ih (fun x hx => h x (List.mem_cons_of_mem a hx))]

/-! ### One-step unfolding of the visited-set fixpoints, with the `attach`
bookkeeping removed. -/

theorem ctl_ef_unfold (m : Model) (p : String → Bool) (S : String) (V : List String) :
    ctl_ef m p S V =
      (p S || (!(V.contains S) && (m.succs S).any (fun n => ctl_ef m p n (S :: V)))) := by
  rw [ctl_ef]
  by_cases hc : V.contains S = true
  · rw [dif_pos hc, hc]
    simp
  · rw [dif_neg hc]
    simp only [Bool.not_eq_true] at hc
    rw [hc, any_attach (m.succs S) (fun x => ctl_ef m p x (S :: V))]
    simp

theorem ctl_af_unfold (m : Model) (p : String → Bool) (S : String) (V : List String) :
    ctl_af m p S V =
      (p S || (!(V.contains S) && (!(m.succs S).isEmpty &&
        (m.succs S).all (fun n => ctl_af m p n (S :: V))))) := by
  rw [ctl_af]
  by_cases hc : V.contains S = true
  · rw [dif_pos hc, hc]
    simp
  · rw [dif_neg hc]
    simp only [Bool.not_eq_true] at hc
    rw [hc, all_attach (m.succs S) (fun x => ctl_af m p x (S :: V))]
    simp

theorem ctl_eg_unfold (m : Model) (p : String → Bool) (S : String) (V : List String) :
    ctl_eg m p S V =
      (p S && (V.contains S || (m.succs S).any (fun n => ctl_eg m p n (S :: V)))) := by
  rw [ctl_eg]
  by_cases hc : V.contains S = true
  · rw [dif_pos hc, hc]
    simp
  · rw [dif_neg hc]
    simp only [Bool.not_eq_true] at hc
    rw [hc, any_attach (m.succs S) (fun x => ctl_eg m p x (S :: V))]
    simp

theorem ctl_ag_unfold (m : Model) (p : String → Bool) (S : String) (V : List String) :
    ctl_ag m p S V =
      (p S && (V.contains S || (m.succs S).all (fun n => ctl_ag m p n (S :: V)))) := by
  rw [ctl_ag]
  by_cases hc : V.contains S = true
  · rw [dif_pos hc, hc]
    simp
  · rw [dif_neg hc]
    simp only [Bool.not_eq_true] at hc
    rw [hc, all_attach (m.succs S) (fun x => ctl_ag m p x (S :: V))]
    simp

theorem ctl_eu_unfold (m : Model) (p q : String → Bool) (S : String) (V : List String) :
    ctl_eu m p q S V =
      (q S || (!(V.contains S) && (p S &&
        (m.succs S).any (fun n => ctl_eu m p q n (S :: V))))) := by
  rw [ctl_eu]
  by_cases hc : V.contains S = true
  · rw [dif_pos hc, hc]
    simp
  · rw [dif_neg hc]
    simp only [Bool.not_eq_true] at hc
    rw [hc, any_attach (m.succs S) (fun x => ctl_eu m p q x (S :: V))]
    simp

theorem card_sdiff_cons_lt (m : Model) {S n : String} {V : List String}
    (hn : n ∈ m.succs S) (hV : V.contains S = false) :
    (m.sourcesFinset \ (S :: V).toFinset).card < (m.sourcesFinset \ V.toFinset).card := by
  simp only [Model.succs, List.mem_map, List.mem_filter] at hn
  obtain ⟨tr, ⟨htr, heq⟩, _⟩ := hn
  have hS : S ∈ m.sourcesFinset := by
    simp only [Model.sourcesFinset, Model.sources, List.mem_toFinset, List.mem_map]
    exact ⟨tr, htr, by simpa using heq⟩
  have hSV : S ∉ V.toFinset := by
    simp only [List.mem_toFinset]
    intro hmem
    have hco : V.contains S = true := List.elem_iff.2 hmem
    rw [hV] at hco
    exact Bool.false_ne_true hco
  have hsub : m.sourcesFinset \ (S :: V).toFinset ⊆ m.sourcesFinset \ V.toFinset := by
    intro x hx
    simp only [List.toFinset_cons, Finset.mem_sdiff, Finset.mem_insert] at hx ⊢
    exact ⟨hx.1, fun hxV => hx.2 (Or.inr hxV)⟩
  refine Finset.card_lt_card ((Finset.ssubset_iff_of_subset hsub).2 ⟨S, ?_, ?_⟩)
  · exact Finset.mem_sdiff.2 ⟨hS, hSV⟩
  · simp [List.toFinset_cons]

theorem ctl_ag_eq_not_ef (m : Model) (p : String → Bool) :
    ∀ (k : Nat) (S : String) (V : List String),
      (m.sourcesFinset \ V.toFinset).card ≤ k →
      ctl_ag m p S V = !(ctl_ef m (fun s => !(p s)) S V) := by
  intro k
  induction k with
  | zero =>
    intro S V hk
    rw [ctl_ag_unfold, ctl_ef_unfold]
    by_cases hc : V.contains S = true
    · rw [hc]
      simp
    · simp only [Bool.not_eq_true] at hc
      rw [hc]
      cases hs : m.succs S with
      | nil => simp
      | cons a t =>
        exfalso
        have ha : a ∈ m.succs S := by
          rw [hs]
          exact List.mem_cons_self a t
        have := lt_of_lt_of_le (card_sdiff_cons_lt m ha hc) hk
        exact Nat.not_lt_zero _ this
  | succ k ih =>
    intro S V hk
    rw [ctl_ag_unfold, ctl_ef_unfold]
    by_cases hc : V.contains S = true
    · rw [hc]
      simp
    · simp only [Bool.not_eq_true] at hc
      rw [hc]
      simp only [Bool.false_or, Bool.not_false, Bool.true_and, Bool.not_or, Bool.not_not]
      rw [not_any_eq_all_not]
      congr 1
      apply all_congr_mem
      intro x hx
      have hlt := lt_of_lt_of_le (card_sdiff_cons_lt m hx hc) hk
      exact ih x (S :: V) (Nat.lt_succ_iff.1 hlt)

theorem ctl_au_unfold (m : Model) (p q : String → Bool) (S : String) (V : List String) :
    ctl_au m p q S V =
      (q S || (!(V.contains S) && (p S && (!(m.succs S).isEmpty &&
        (m.succs S).all (fun n => ctl_au m p q n (S :: V)))))) := by
  rw [ctl_au]
  by_cases hc : V.contains S = true
  · rw [dif_pos hc, hc]
    simp
  · rw [dif_neg hc]
    simp only [Bool.not_eq_true] at hc
    rw [hc, all_attach (m.succs S) (fun x => ctl_au m p q x (S :: V))]
    simp

/-! ### Claim theorems -/

/-- Claim C3: for every model, every state `S` and every formula `φ`, the
evaluator satisfies the AG/EF duality under its visited-set cycle semantics:
`sat(S, ag(φ))` holds if and only if `sat(S, ef(not(φ)))` does not hold. -/
theorem ag_ef_duality (m : Model) (S : String) (φ : Formula) :
    ctl_sat m S (Formula.ag φ) = true ↔
      ¬ (ctl_sat m S (Formula.ef (Formula.not φ)) = true) := by
  have h := ctl_ag_eq_not_ef m (fun s => ctl_sat m s φ)
    (m.sourcesFinset \ ([] : List String).toFinset).card S [] le_rfl
  simp only [ctl_sat]
  rw [h]
  cases hb : ctl_ef m (fun s => !(ctl_sat m s φ)) S [] <;> simp

/-- Claim C1 counterexample: on the model with `initial(s0)`, `initial(s1)`
and `prop(s0, p)` only, `check_ctl(atom(p))` returns true although the
initial state `s1` does not satisfy `atom(p)` — so `check_ctl` is NOT the
universal quantification over initial states stated by the claim. -/
theorem check_ctl_universal_counterexample :
    check_ctl twoInitialModel (Formula.atom "p") = true ∧
      "s1" ∈ twoInitialModel.initial ∧
      ctl_sat twoInitialModel "s1" (Formula.atom "p") = false := by
  refine ⟨by decide, by decide, by decide⟩

/-- Claim C1 as amended: `check_ctl(φ)` returns true if and only if
`sat(S₀, φ)` holds for SOME solution `S₀` of `initial/1` (existential, not
universal, quantification over initial states). -/
theorem check_ctl_iff_exists_initial (m : Model) (φ : Formula) :
    check_ctl m φ = true ↔ ∃ S ∈ m.initial, ctl_sat m S φ = true := by
  simp [check_ctl, List.any_eq_true]

/-- Claim C2 counterexample: after a successful load of `"initial(s0)."`,
loading the unparseable source `"bad("` through the spec endpoint fails, yet
the clause database afterwards is NOT the pre-load database: the reset-then-
load sequence has discarded the previously loaded clauses. -/
theorem load_not_atomic_counterexample :
    (handleSpecPost consult0 loadedEngine "bad(").2 = false ∧
      (handleSpecPost consult0 loadedEngine "bad(").1.db ≠ loadedEngine.db := by
  refine ⟨by decide, by decide⟩

/-- Claim C2 as amended: when a load through the spec endpoint fails with a
parse or consult error, the previous database is NOT restored; the database
afterwards is exactly the freshly reset core library (the prior user clauses
are lost), while the retained source is still replaced by the failed text. -/
theorem load_failure_leaves_reset_core (consult : String → Option (List String))
    (e : EngineState) (s : String) (hfail : consult s = none) :
    (handleSpecPost consult e s).1.db = coreDB ∧
      (handleSpecPost consult e s).2 = false ∧
      (handleSpecPost consult e s).1.specSource = s := by
  simp [handleSpecPost, LoadSpec, Reset, newEngine, hfail]

/-- Witness for `load_failure_leaves_reset_core` at the concrete failing
input of the counterexample. -/
theorem load_failure_leaves_reset_core_witness :
    consult0 "bad(" = none ∧
      ((handleSpecPost consult0 loadedEngine "bad(").1.db = coreDB ∧
        (handleSpecPost consult0 loadedEngine "bad(").2 = false ∧
        (handleSpecPost consult0 loadedEngine "bad(").1.specSource = "bad(") :=
  ⟨by decide, load_failure_leaves_reset_core consult0 loadedEngine "bad(" (by decide)⟩

/-- Claim C9: after any load — through `LoadSpec` directly or through the
spec endpoint, successful or failed — the retained source returned by
`GetSource` is exactly the loaded text: it is replaced unconditionally before
the load's success is known. -/
theorem get_source_after_load (consult : String → Option (List String))
    (e : EngineState) (s : String) :
    GetSource (LoadSpec consult e s).1 = s ∧
      GetSource (handleSpecPost consult e s).1 = s := by
  constructor <;>
    · simp only [handleSpecPost, LoadSpec, GetSource]
      cases consult s <;> rfl

/-- Claim C4: a transition out of the current actor state is enabled if and
only if the state guard has no solution or some solution's goal succeeds
under `call`, and likewise for the transition guard; a state or transition
with no guard clause is unconditionally enabled. -/
theorem transition_enabled_iff {G : Type} (d : GuardDB G) (state : String)
    (t : String × String × String) :
    transitionAllowed d state t = true ↔
      ((d.state_guard state = [] ∨ ∃ g ∈ d.state_guard state, d.callG g = true) ∧
       (d.transition_guard t.1 t.2.1 t.2.2 = [] ∨
         ∃ g ∈ d.transition_guard t.1 t.2.1 t.2.2, d.callG g = true)) := by
  have h1 : stateGuardSatisfied d state = true ↔
      (d.state_guard state = [] ∨ ∃ g ∈ d.state_guard state, d.callG g = true) := by
    unfold stateGuardSatisfied
    cases hl : d.state_guard state <;> simp [List.any_eq_true]
  have h2 : transitionGuardSatisfied d t = true ↔
      (d.transition_guard t.1 t.2.1 t.2.2 = [] ∨
        ∃ g ∈ d.transition_guard t.1 t.2.1 t.2.2, d.callG g = true) := by
    unfold transitionGuardSatisfied
    cases hl : d.transition_guard t.1 t.2.1 t.2.2 <;> simp [List.any_eq_true]
  have h3 : transitionAllowed d state t = true ↔
      (stateGuardSatisfied d state = true ∧ transitionGuardSatisfied d t = true) := by
    unfold transitionAllowed
    cases hA : stateGuardSatisfied d state <;>
      cases hB : transitionGuardSatisfied d t <;> simp
  rw [h3, h1, h2]

/-- Claim C5: on the two-state cycle model of Scenario B, the CTL check of
`eg(atom(even))` returns false and the CTL check of
`ag(or(atom(even), atom(odd)))` returns true. -/
theorem scenarioB_checks :
    check_ctl cycleModel (Formula.eg (Formula.atom "even")) = false ∧
      check_ctl cycleModel
        (Formula.ag (Formula.or (Formula.atom "even") (Formula.atom "odd"))) = true := by
  have psucc0 : cycleModel.succs "s0" = ["s1"] := by decide
  have psucc1 : cycleModel.succs "s1" = ["s0"] := by decide
  have pe1 : ctl_sat cycleModel "s1" (Formula.atom "even") = false := by decide
  have po0 : ctl_sat cycleModel "s0"
      (Formula.or (Formula.atom "even") (Formula.atom "odd")) = true := by decide
  have po1 : ctl_sat cycleModel "s1"
      (Formula.or (Formula.atom "even") (Formula.atom "odd")) = true := by decide
  have hc0 : (([] : List String).contains "s0") = false := by decide
  have hc1 : ((["s0"] : List String).contains "s1") = false := by decide
  have hc2 : ((["s1", "s0"] : List String).contains "s0") = true := by decide
  have heg1 : ctl_eg cycleModel (fun s => ctl_sat cycleModel s (Formula.atom "even"))
      "s1" ["s0"] = false := by
    rw [ctl_eg_unfold]
    simp [pe1]
  have heg0 : ctl_eg cycleModel (fun s => ctl_sat cycleModel s (Formula.atom "even"))
      "s0" [] = false := by
    rw [ctl_eg_unfold]
    simp [psucc0, hc0, heg1]
  have hag2 : ctl_ag cycleModel (fun s => ctl_sat cycleModel s
      (Formula.or (Formula.atom "even") (Formula.atom "odd"))) "s0" ["s1", "s0"] = true := by
    rw [ctl_ag_unfold]
    simp [po0, hc2]
  have hag1 : ctl_ag cycleModel (fun s => ctl_sat cycleModel s
      (Formula.or (Formula.atom "even") (Formula.atom "odd"))) "s1" ["s0"] = true := by
    rw [ctl_ag_unfold]
    simp [po1, psucc1, hc1, hag2]
  have hag0 : ctl_ag cycleModel (fun s => ctl_sat cycleModel s
      (Formula.or (Formula.atom "even") (Formula.atom "odd"))) "s0" [] = true := by
    rw [ctl_ag_unfold]
    simp [po0, psucc0, hc0, hag1]
  have hinit : cycleModel.initial = ["s0"] := rfl
  constructor
  · rw [check_ctl, hinit, List.any_cons, List.any_nil, Bool.or_false]
    exact heg0
  · rw [check_ctl, hinit, List.any_cons, List.any_nil, Bool.or_false]
    exact hag0

theorem numberFrom_get_seq (ps : List (String × String × String)) :
    ∀ (n i : Nat) (h : i < (numberFrom n ps).length),
      ((numberFrom n ps).get ⟨i, h⟩).seq = n + i := by
  induction ps with
  | nil => intro n i h; simp [numberFrom] at h
  | cons x rest ih =>
    intro n i h
    obtain ⟨src, dst, label⟩ := x
    match i with
    | 0 => simp [numberFrom]
    | j + 1 =>
      have hj : j < (numberFrom (n + 1) rest).length := by
        simpa [numberFrom] using h
      have := ih (n + 1) j hj
      simp only [numberFrom, List.get]
      omega

theorem matchingPairs_nil_annots
    (l : List (String × String × String × String)) : matchingPairs [] l = [] := by
  induction l with
  | nil => rfl
  | cons x rest ih =>
    obtain ⟨actor, f, label, t⟩ := x
    simp [matchingPairs, ih]

/-- Claim C6: with no `message/4` solutions, `GetSequenceDiagram` synthesizes
one message per (actor-transition, matching annotation) pair — Actor→Peer
for send, Peer→Actor for recv — numbering consecutively from 1 in
enumeration order; on the Scenario E database it returns
`[(1, client, server, send_prompt), (2, server, client, receive_response)]`. -/
theorem sequence_fallback_synthesis :
    (∀ db : SpecDB, db.messages = [] →
        (GetSequenceDiagram db).messages =
          synthesizeMessages db.msgAnnots db.actorTransitions) ∧
    (∀ (annots : List (String × String × String))
        (atrans : List (String × String × String × String)) (i : Nat)
        (h : i < (synthesizeMessages annots atrans).length),
        ((synthesizeMessages annots atrans).get ⟨i, h⟩).seq = i + 1) ∧
    (GetSequenceDiagram scenarioEDB).messages =
      [Message.mk 1 "client" "server" "send_prompt",
       Message.mk 2 "server" "client" "receive_response"] := by
  refine ⟨?_, ?_, by decide⟩
  · intro db h
    by_cases ha : db.msgAnnots = []
    · simp [GetSequenceDiagram, h, ha, synthesizeMessages,
        matchingPairs_nil_annots, numberFrom]
    · have hne : db.msgAnnots.isEmpty = false := by
        cases hl : db.msgAnnots with
        | nil => exact absurd hl ha
        | cons a t => rfl
      simp [GetSequenceDiagram, h, hne]
  · intro annots atrans i h
    unfold synthesizeMessages at h ⊢
    rw [numberFrom_get_seq (matchingPairs annots atrans) 1 i h]
    omega

/-- Witness for `sequence_fallback_synthesis`: its hypothesized conjuncts
applied at the Scenario E database and at the first synthesized message. -/
theorem sequence_fallback_synthesis_witness :
    ((GetSequenceDiagram scenarioEDB).messages =
        synthesizeMessages scenarioEDB.msgAnnots scenarioEDB.actorTransitions) ∧
      ((synthesizeMessages scenarioEDB.msgAnnots
          scenarioEDB.actorTransitions).get ⟨0, by decide⟩).seq = 0 + 1 :=
  ⟨sequence_fallback_synthesis.1 scenarioEDB rfl,
   sequence_fallback_synthesis.2.1 scenarioEDB.msgAnnots
     scenarioEDB.actorTransitions 0 (by decide)⟩

/-- Claim C7: every projection operation on a database whose queried
predicates have no clauses returns the empty view; the operations are total,
and every return path of the Go implementations yields a nil error. -/
theorem projections_empty_on_no_clauses (db : SpecDB) :
    (db.transitionFacts = [] → db.initialFacts = [] → db.acceptingFacts = [] →
      GetStateMachine db = StateMachine.mk ∅ [] [] []) ∧
    (db.messages = [] → db.msgAnnots = [] → db.lifelines = [] →
      GetSequenceDiagram db = SequenceDiagram.mk [] []) ∧
    (db.pieSlices = [] → GetPieChart db = []) ∧
    (db.linePoints = [] → GetLineChart db = []) ∧
    (db.propertyFacts = [] → GetProperties db = []) ∧
    (db.docFacts = [] → GetDocs db = []) ∧
    (db.actorNames = [] → db.actorPairs = [] → GetActors db = []) := by
  refine ⟨?_, ?_, ?_, ?_, ?_, ?_, ?_⟩
  · intro h1 h2 h3
    simp [GetStateMachine, h1, h2, h3]
  · intro h1 h2 h3
    simp [GetSequenceDiagram, h1, h2, h3]
  · intro h; simp [GetPieChart, h]
  · intro h; simp [GetLineChart, h]
  · intro h; simp [GetProperties, h]
  · intro h; simp [GetDocs, h]
  · intro h1 h2; simp [GetActors, h1, h2, dedupFirst]

/-- Witness for `projections_empty_on_no_clauses` at the database with no
clauses at all. -/
theorem projections_empty_witness :
    GetStateMachine emptySpecDB = StateMachine.mk ∅ [] [] [] ∧
      GetSequenceDiagram emptySpecDB = SequenceDiagram.mk [] [] ∧
      GetPieChart emptySpecDB = [] ∧
      GetLineChart emptySpecDB = [] ∧
      GetProperties emptySpecDB = [] ∧
      GetDocs emptySpecDB = [] ∧
      GetActors emptySpecDB = [] :=
  ⟨(projections_empty_on_no_clauses emptySpecDB).1 rfl rfl rfl,
   (projections_empty_on_no_clauses emptySpecDB).2.1 rfl rfl rfl,
   (projections_empty_on_no_clauses emptySpecDB).2.2.1 rfl,
   (projections_empty_on_no_clauses emptySpecDB).2.2.2.1 rfl,
   (projections_empty_on_no_clauses emptySpecDB).2.2.2.2.1 rfl,
   (projections_empty_on_no_clauses emptySpecDB).2.2.2.2.2.1 rfl,
   (projections_empty_on_no_clauses emptySpecDB).2.2.2.2.2.2 rfl rfl⟩

/-- Claim C10: for every pair of numbers, with no `dice0_value/1` fact
asserted the goal `dice0(Low, High)` succeeds unconditionally — also right
after `clearDiceValue`, and even for bounds `Low ≥ High` under which the
bounds test rejects every sample — while with an asserted fact `d` the
bounds test `D >= Low, D < High` is applied and decides the goal. -/
theorem dice0_vacuous_without_fact :
    (∀ low high : ℚ, dice0 none low high = true) ∧
      (∀ (f : Option ℚ) (low high : ℚ), dice0 (clearDiceValue f) low high = true) ∧
      (∀ low high d : ℚ, high ≤ low → dice0 (some d) low high = false) ∧
      (∀ low high d : ℚ, dice0 (some d) low high = true ↔ (low ≤ d ∧ d < high)) := by
  refine ⟨fun _ _ => rfl, fun _ _ _ => rfl, ?_, ?_⟩
  · intro low high d hlh
    rcases le_or_lt low d with hd | hd
    · have hnot : ¬(d < high) := fun hlt =>
        absurd (lt_of_le_of_lt (hlh.trans hd) hlt) (lt_irrefl high)
      simp [dice0, hnot]
    · have hnot : ¬(d ≥ low) := not_le.mpr hd
      simp [dice0, hnot]
  · intro low high d
    simp [dice0, ge_iff_le]

/-- Witness for `dice0_vacuous_without_fact` at the degenerate bounds
`Low = High = 1` and the sample `1/2`. -/
theorem dice0_vacuous_without_fact_witness :
    ((1 : ℚ) ≤ 1) ∧ dice0 (some (1 / 2 : ℚ)) 1 1 = false ∧ dice0 none 1 1 = true :=
  ⟨le_refl 1, dice0_vacuous_without_fact.2.2.1 1 1 (1 / 2) (le_refl 1),
   dice0_vacuous_without_fact.1 1 1⟩


end Turducken
